import Mathlib

/-!
Verification of the TodoList repository (`src/main.py`): a task-tracking
utility with a CLI front-end (typer) and an HTTP front-end (FastAPI),
both backed by one SQLite table `tasks(id, task_name, description,
status, date_added)`.

The embedding models:
- the stored table as a list of rows in rowid order (SQLite stores rows
  in a B-tree keyed by rowid, so a full scan returns ascending-id order;
  since new rowids are always larger than existing ones, appending keeps
  that order);
- rowid assignment for an `INTEGER PRIMARY KEY` column without
  `AUTOINCREMENT`: the new rowid is one more than the largest rowid
  currently in the table (1 when the table is empty), per SQLite's
  documented algorithm;
- the pydantic models `TaskCreate`, `TaskUpdate`, `Task` as validation
  functions returning `Except`: FastAPI runs request-body validation
  before the handler (a failure is a 422 response), and a pydantic
  error raised while building a `Task` response inside a handler is an
  uncaught exception (a 500 response);
- each FastAPI handler and each typer CLI command as a function from the
  database state to its result and/or new state (an `Except Err` where
  the handler can fail before writing).  The PUT handler commits its
  UPDATE before building the response model, so its embedding returns
  the committed table paired with the response, letting the
  500-after-commit path keep the written row.  The CLI commands have no
  failure path in the source (they execute their single SQL statement
  and print a success message), so their embeddings always return
  `Except.ok`.
-/

deriving instance DecidableEq for Except

namespace Todo

/-- The four values of the `status` literal in `TaskBase` / `TaskUpdate`:
`Literal["pending", "done", "in-progress", "testing"]`. -/
def statusValues : List String := ["pending", "done", "in-progress", "testing"]

/-- Membership in the `status` literal. -/
def validStatus (s : String) : Bool := statusValues.contains s

/-- One row of the `tasks` table. `description` is a nullable column;
`id` is the `INTEGER PRIMARY KEY` rowid. -/
structure Row where
  id : Nat
  task_name : String
  description : Option String
  status : String
  date_added : String
deriving Repr, DecidableEq

/-- The stored `tasks` table, rows in ascending-rowid scan order. -/
structure DB where
  rows : List Row
deriving Repr, DecidableEq

/-- The table right after `create_DB_Table` on a fresh file. -/
def emptyDB : DB := ⟨[]⟩

/-- SQLite rowid assignment for `INTEGER PRIMARY KEY` without
`AUTOINCREMENT`: one more than the largest rowid in use (1 if empty). -/
def nextId (db : DB) : Nat := (db.rows.map Row.id).foldr max 0 + 1

/-- `INSERT INTO tasks (task_name, description, status, date_added)
VALUES (?, ?, ?, ?)`: assigns the next rowid and appends the row.
Returns the assigned rowid (`cursor.lastrowid`) and the new table. -/
def insertRow (db : DB) (name : String) (desc : Option String)
    (st : String) (date : String) : Nat × DB :=
  let i := nextId db
  (i, ⟨db.rows ++ [⟨i, name, desc, st, date⟩]⟩)

/-- `SELECT ... FROM tasks WHERE id = ?` followed by `fetchone()`. -/
def findRow (db : DB) (i : Nat) : Option Row :=
  db.rows.find? (fun r => r.id == i)

/-- A client- or server-facing error: HTTP status code plus detail
message (FastAPI `HTTPException` / validation response). -/
structure Err where
  code : Nat
  detail : String
deriving Repr, DecidableEq

/-- The pydantic `TaskCreate` model after successful validation:
`task_name` required (length 1–100), `description` optional
(length ≤ 255), `status` a literal defaulting to `"pending"`. -/
structure TaskCreate where
  task_name : String
  description : Option String
  status : String
deriving Repr, DecidableEq

/-- A raw JSON request body for POST /tasks, before validation. `none`
means the field is absent (or null). -/
structure CreateInput where
  task_name : Option String
  description : Option String
  status : Option String
deriving Repr, DecidableEq

/-- FastAPI/pydantic validation of a POST /tasks body against
`TaskCreate`: `task_name` required with `min_length=1, max_length=100`,
`description` optional with `max_length=255`, `status` must be one of
the four literal values and defaults to `"pending"`. A failure is a
422 response produced before the handler runs. -/
def validateCreate (raw : CreateInput) : Except Err TaskCreate :=
  match raw.task_name with
  | none => .error ⟨422, "Field required: task_name"⟩
  | some n =>
    if n.length < 1 ∨ n.length > 100 then
      .error ⟨422, "task_name: length must be between 1 and 100"⟩
    else
      match raw.description with
      | some d =>
        if d.length > 255 then
          .error ⟨422, "description: length must be at most 255"⟩
        else
          match raw.status with
          | none => .ok ⟨n, some d, "pending"⟩
          | some s =>
            if validStatus s then .ok ⟨n, some d, s⟩
            else .error ⟨422, "status: not a permitted value"⟩
      | none =>
        match raw.status with
        | none => .ok ⟨n, none, "pending"⟩
        | some s =>
          if validStatus s then .ok ⟨n, none, s⟩
          else .error ⟨422, "status: not a permitted value"⟩

/-- A raw JSON request body for PUT /tasks/{id}, before validation.
`none` means the field is absent or null (pydantic's `Optional` fields
deliver `None` to the handler in both cases). -/
structure UpdateInput where
  task_name : Option String
  description : Option String
  status : Option String
deriving Repr, DecidableEq

/-- The pydantic `TaskUpdate` model after successful validation: every
field optional; a present `task_name` has length 1–100, a present
`description` has length ≤ 255, a present `status` is one of the four
literal values. -/
structure TaskUpdate where
  task_name : Option String
  description : Option String
  status : Option String
deriving Repr, DecidableEq

/-- FastAPI/pydantic validation of a PUT /tasks/{id} body against
`TaskUpdate`. A failure is a 422 response produced before the handler
runs. -/
def validateUpdate (raw : UpdateInput) : Except Err TaskUpdate :=
  match raw.task_name with
  | some n =>
    if n.length < 1 ∨ n.length > 100 then
      .error ⟨422, "task_name: length must be between 1 and 100"⟩
    else
      match raw.description with
      | some d =>
        if d.length > 255 then
          .error ⟨422, "description: length must be at most 255"⟩
        else
          match raw.status with
          | some s =>
            if validStatus s then .ok ⟨some n, some d, some s⟩
            else .error ⟨422, "status: not a permitted value"⟩
          | none => .ok ⟨some n, some d, none⟩
      | none =>
        match raw.status with
        | some s =>
          if validStatus s then .ok ⟨some n, none, some s⟩
          else .error ⟨422, "status: not a permitted value"⟩
        | none => .ok ⟨some n, none, none⟩
  | none =>
    match raw.description with
    | some d =>
      if d.length > 255 then
        .error ⟨422, "description: length must be at most 255"⟩
      else
        match raw.status with
        | some s =>
          if validStatus s then .ok ⟨none, some d, some s⟩
          else .error ⟨422, "status: not a permitted value"⟩
        | none => .ok ⟨none, some d, none⟩
    | none =>
      match raw.status with
      | some s =>
        if validStatus s then .ok ⟨none, none, some s⟩
        else .error ⟨422, "status: not a permitted value"⟩
      | none => .ok ⟨none, none, none⟩

/-- The pydantic `Task` response model: `TaskBase` fields plus `id` and
`date_added`. -/
structure Task where
  id : Nat
  task_name : String
  description : Option String
  status : String
  date_added : String
deriving Repr, DecidableEq

/-- Building a `Task` response from a stored row re-runs the `TaskBase`
field validators (`Task(...)` in the handlers). A failure raised inside
a handler is an uncaught pydantic error, i.e. a 500 response. -/
def validateTask (r : Row) : Except Err Task :=
  if r.task_name.length < 1 ∨ r.task_name.length > 100 then
    .error ⟨500, "Internal Server Error: task_name validation"⟩
  else if ((r.description.map String.length).getD 0) > 255 then
    .error ⟨500, "Internal Server Error: description validation"⟩
  else if ¬ validStatus r.status then
    .error ⟨500, "Internal Server Error: status validation"⟩
  else
    .ok ⟨r.id, r.task_name, r.description, r.status, r.date_added⟩

/-- The list comprehension in `get_tasks`: build a `Task` for every
row in order; the first pydantic failure aborts the request. -/
def tasksOfRows : List Row → Except Err (List Task)
  | [] => .ok []
  | r :: rs =>
    match validateTask r with
    | .error e => .error e
    | .ok t =>
      match tasksOfRows rs with
      | .error e => .error e
      | .ok ts => .ok (t :: ts)

/-- GET /tasks: `SELECT id, task_name, description, status, date_added
FROM tasks`, then build a `Task` for every row. -/
def get_tasks (db : DB) : Except Err (List Task) :=
  tasksOfRows db.rows

/-- POST /tasks: validate the body as `TaskCreate`, stamp `date_added`
with the current time (`now`), insert, and return the new `Task` with
the assigned rowid. -/
def create_task (raw : CreateInput) (now : String) (db : DB) :
    Except Err (Task × DB) :=
  match validateCreate raw with
  | .error e => .error e
  | .ok t =>
    let task_id := (insertRow db t.task_name t.description t.status now).1
    let db' := (insertRow db t.task_name t.description t.status now).2
    .ok (⟨task_id, t.task_name, t.description, t.status, now⟩, db')

/-- PUT /tasks/{task_id}: validate the body as `TaskUpdate`, look up the
row (404 if absent), merge present fields over stored values, write and
commit the merged row (`UPDATE tasks SET task_name = ?, description = ?,
status = ? WHERE id = ?` — `date_added` is not updated), then build the
response with `Task(id=task_id, task_name=new_task_name, ...)`, which
re-runs the `TaskBase` field validators.  A pydantic failure there (a
merged row carrying corrupt stored fields) is an uncaught exception,
i.e. a 500 response — but it is raised after `db.commit()`, so the
table keeps the merged row.  Returns the stored table after the request
together with the HTTP response. -/
def update_task (task_id : Nat) (raw : UpdateInput) (db : DB) :
    DB × Except Err Task :=
  match validateUpdate raw with
  | .error e => (db, .error e)
  | .ok t =>
  match findRow db task_id with
  | none => (db, .error ⟨404, "Task not found"⟩)
  | some row =>
    let new_task_name := match t.task_name with
      | some n => n
      | none => row.task_name
    let new_description := match t.description with
      | some d => some d
      | none => row.description
    let new_status := match t.status with
      | some s => s
      | none => row.status
    let db' : DB := ⟨db.rows.map (fun r =>
      if r.id == task_id then
        { r with task_name := new_task_name,
                 description := new_description,
                 status := new_status }
      else r)⟩
    (db', validateTask ⟨task_id, new_task_name, new_description,
          new_status, row.date_added⟩)

/-- DELETE /tasks/{task_id}: look up the row (404 if absent), then
`DELETE FROM tasks WHERE id = ?`. -/
def delete_task (task_id : Nat) (db : DB) : Except Err DB :=
  match findRow db task_id with
  | none => .error ⟨404, "Task not found"⟩
  | some _ => .ok ⟨db.rows.filter (fun r => !(r.id == task_id))⟩

/-- CLI `show-list`: `SELECT id, task_name, description, status,
date_added FROM tasks`, printed as a table. Returns the raw rows; no
validation is applied. -/
def showList (db : DB) : List Row := db.rows

/-- CLI `add-item <task_name> <description>`: inserts the row with
status `'pending'` and the current time. No validation; never fails. -/
def addItem (task_name description : String) (now : String) (db : DB) :
    Except Err DB :=
  .ok (insertRow db task_name (some description) "pending" now).2

/-- CLI `update-item <task_id> <new_status>`: `UPDATE tasks SET status
= ? WHERE id = ?`. No validation, no existence check; never fails (an
absent id simply updates zero rows). -/
def updateItem (task_id : Nat) (new_status : String) (db : DB) :
    Except Err DB :=
  .ok ⟨db.rows.map (fun r =>
    if r.id == task_id then { r with status := new_status } else r)⟩

/-- CLI `remove-item <task_id>`: `DELETE FROM tasks WHERE id = ?`. No
existence check; never fails (an absent id simply deletes zero rows). -/
def removeItem (task_id : Nat) (db : DB) : Except Err DB :=
  .ok ⟨db.rows.filter (fun r => !(r.id == task_id))⟩

/-- All operations of both front-ends that touch the store, as one
type, for statements quantifying over "every operation". -/
inductive Op where
  | httpCreate (raw : CreateInput) (now : String)
  | httpUpdate (i : Nat) (raw : UpdateInput)
  | httpDelete (i : Nat)
  | cliAdd (task_name description now : String)
  | cliUpdate (i : Nat) (new_status : String)
  | cliRemove (i : Nat)
deriving Repr, DecidableEq

/-- The state transition of each operation (result values dropped).
For PUT the stored table after the request is `(update_task ...).1`:
the handler's UPDATE commits before the response model is built, and
the 422/404 paths leave the table unchanged. -/
def applyOp : Op → DB → Except Err DB
  | .httpCreate raw now, db => (create_task raw now db).map (fun p => p.2)
  | .httpUpdate i raw, db => .ok (update_task i raw db).1
  | .httpDelete i, db => delete_task i db
  | .cliAdd n d now, db => addItem n d now db
  | .cliUpdate i s, db => updateItem i s db
  | .cliRemove i, db => removeItem i db

/-- Discriminates the one operation whose status write is unvalidated. -/
def isCliUpdate : Op → Bool
  | .cliUpdate _ _ => true
  | _ => false

/-- Invariant: every stored row's status is one of the four enumerated
values. -/
def statusInv (db : DB) : Prop :=
  ∀ r ∈ db.rows, validStatus r.status = true

instance (db : DB) : Decidable (statusInv db) := by
  unfold statusInv; infer_instance

/-- Invariant: the stored ids are strictly increasing in scan order (in
particular pairwise distinct). -/
def idsOK (db : DB) : Prop :=
  (db.rows.map Row.id).Pairwise (· < ·)

instance (db : DB) : Decidable (idsOK db) := by
  unfold idsOK; infer_instance

/-- The `Task` built from a row when every field validator passes. -/
def toTask (r : Row) : Task :=
  ⟨r.id, r.task_name, r.description, r.status, r.date_added⟩

/-- A stored row that satisfies all `TaskBase` field validators. -/
def goodRow (r : Row) : Bool :=
  (1 ≤ r.task_name.length && r.task_name.length ≤ 100) &&
  ((r.description.map String.length).getD 0 ≤ 255) &&
  validStatus r.status

/-- A `TaskCreate` value whose fields satisfy their validators. -/
def validTC (t : TaskCreate) : Bool :=
  (1 ≤ t.task_name.length && t.task_name.length ≤ 100) &&
  ((t.description.map String.length).getD 0 ≤ 255) &&
  validStatus t.status

/-- The POST /tasks body that carries exactly the fields of `t`. -/
def toRaw (t : TaskCreate) : CreateInput :=
  ⟨some t.task_name, t.description, some t.status⟩

/-- Run a sequence of POST /tasks requests, stopping at the first
failure. -/
def runCreates : List (CreateInput × String) → DB → Except Err DB
  | [], db => .ok db
  | x :: xs, db =>
    match create_task x.1 x.2 db with
    | .error e => .error e
    | .ok (_, db') => runCreates xs db'

/-- The rows produced by a sequence of creates that starts when the
next rowid is `i`: consecutive ids from `i`. -/
def buildRows : List (TaskCreate × String) → Nat → List Row
  | [], _ => []
  | x :: xs, i =>
    ⟨i, x.1.task_name, x.1.description, x.1.status, x.2⟩ :: buildRows xs (i + 1)

/-! ### General lemmas about the embedded operations -/

lemma le_foldr_max {l : List Nat} {a : Nat} (h : a ∈ l) : a ≤ l.foldr max 0 := by
  induction l with
  | nil => cases h
  | cons b t ih =>
    simp only [List.foldr_cons]
    rcases List.mem_cons.mp h with rfl | h
    · exact le_max_left _ _
    · exact le_trans (ih h) (le_max_right _ _)

lemma id_lt_nextId {db : DB} {r : Row} (h : r ∈ db.rows) : r.id < nextId db := by
  have hm : r.id ∈ db.rows.map Row.id := List.mem_map_of_mem _ h
  exact Nat.lt_succ_of_le (le_foldr_max hm)

lemma foldr_max_append (l : List Nat) (k : Nat) :
    (l ++ [k]).foldr max 0 = max (l.foldr max 0) k := by
  induction l with
  | nil => simp
  | cons a t ih => simp [ih, Nat.max_assoc]

lemma nextId_insert (db : DB) (n : String) (d : Option String) (s t : String) :
    nextId (insertRow db n d s t).2 = nextId db + 1 := by
  unfold insertRow
  unfold nextId
  simp only [List.map_append, List.map_cons, List.map_nil, foldr_max_append]
  omega

lemma idsOK_insert {db : DB} (h : idsOK db) (n : String) (d : Option String)
    (s t : String) : idsOK (insertRow db n d s t).2 := by
  unfold idsOK insertRow at *
  unfold nextId
  simp only [List.map_append, List.map_cons, List.map_nil]
  rw [List.pairwise_append]
  refine ⟨h, List.pairwise_singleton _ _, ?_⟩
  intro a ha b hb
  simp only [List.mem_singleton] at hb
  subst hb
  exact Nat.lt_succ_of_le (le_foldr_max ha)


lemma findRow_some {db : DB} {i : Nat} {row : Row} (h : findRow db i = some row) :
    row ∈ db.rows ∧ row.id = i := by
  unfold findRow at h
  refine ⟨List.mem_of_find?_eq_some h, ?_⟩
  have hp := List.find?_some h
  simpa using hp

lemma findRow_none {db : DB} {i : Nat} (h : findRow db i = none) :
    ∀ r ∈ db.rows, r.id ≠ i := by
  unfold findRow at h
  intro r hr
  have hp := List.find?_eq_none.mp h r hr
  simpa using hp

lemma find?_map_update (l : List Row) (i : Nat) (f : Row → Row)
    (hf : ∀ r, (f r).id = r.id) :
    (l.map (fun r => if r.id == i then f r else r)).find? (fun r => r.id == i)
      = (l.find? (fun r => r.id == i)).map f := by
  induction l with
  | nil => rfl
  | cons a t ih =>
    by_cases h : a.id = i
    · simp [List.find?_cons_of_pos, h, hf]
    · have hb : (a.id == i) = false := by simpa using h
      simp only [List.map_cons]
      rw [List.find?_cons_of_neg, List.find?_cons_of_neg]
      · exact ih
      · simpa using h
      · simp [hb, hf]

lemma map_update_rows_id (l : List Row) (i : Nat) (f : Row → Row)
    (hf : ∀ r, (f r).id = r.id) :
    (l.map (fun r => if r.id == i then f r else r)).map Row.id = l.map Row.id := by
  induction l with
  | nil => rfl
  | cons a t ih =>
    simp only [List.map_cons, ih]
    congr 1
    split
    · exact hf a
    · rfl

lemma mem_filter_ne {l : List Row} {i : Nat} {r : Row}
    (h : r ∈ l.filter (fun r => !(r.id == i))) : r ∈ l ∧ r.id ≠ i := by
  have hm := List.mem_filter.mp h
  simpa using hm

lemma filter_ne_of_not_mem {l : List Row} {i : Nat}
    (h : ∀ r ∈ l, r.id ≠ i) : l.filter (fun r => !(r.id == i)) = l :=
  List.filter_eq_self.mpr (by intro r hr; simpa using h r hr)

lemma findRow_filter_ne (db : DB) (i : Nat) :
    findRow ⟨db.rows.filter (fun r => !(r.id == i))⟩ i = none := by
  unfold findRow
  apply List.find?_eq_none.mpr
  intro x hx
  have hm := (List.mem_filter.mp hx).2
  simpa using hm

lemma length_filter_remove {l : List Row} {i : Nat} {row : Row}
    (hnd : (l.map Row.id).Pairwise (· < ·)) (hm : row ∈ l) (hid : row.id = i) :
    (l.filter (fun r => !(r.id == i))).length + 1 = l.length := by
  induction l with
  | nil => cases hm
  | cons a t ih =>
    simp only [List.map_cons, List.pairwise_cons] at hnd
    rcases List.mem_cons.mp hm with rfl | hm2
    · rw [List.filter_cons_of_neg (by simp [hid])]
      rw [filter_ne_of_not_mem (by
        intro r hr hri
        have hlt := hnd.1 r.id (List.mem_map_of_mem Row.id hr)
        omega)]
      simp
    · have hane : a.id ≠ i := by
        have hlt := hnd.1 row.id (List.mem_map_of_mem Row.id hm2)
        omega
      rw [List.filter_cons_of_pos (by simpa using hane)]
      simp only [List.length_cons]
      rw [← ih hnd.2 hm2]

lemma idsOK_filter (db : DB) (i : Nat) (h : idsOK db) :
    idsOK ⟨db.rows.filter (fun r => !(r.id == i))⟩ := by
  unfold idsOK at *
  exact List.Pairwise.sublist (List.Sublist.map Row.id (List.filter_sublist _)) h


lemma validateCreate_ok {raw : CreateInput} {t : TaskCreate}
    (h : validateCreate raw = .ok t) : validTC t = true := by
  rcases raw with ⟨tn, de, st⟩
  unfold validateCreate at h
  cases tn with
  | none => exact Except.noConfusion h
  | some n =>
    dsimp only at h
    split at h
    · exact Except.noConfusion h
    · rename_i hlen
      push_neg at hlen
      cases de with
      | some d =>
        dsimp only at h
        split at h
        · exact Except.noConfusion h
        · rename_i hd
          push_neg at hd
          cases st with
          | none =>
            injection h with h
            subst h
            simp [validTC, validStatus, statusValues]
            omega
          | some s =>
            dsimp only at h
            split at h
            · rename_i hs
              injection h with h
              subst h
              simp [validTC, hs]
              omega
            · exact Except.noConfusion h
      | none =>
        dsimp only at h
        cases st with
        | none =>
          injection h with h
          subst h
          simp [validTC, validStatus, statusValues]
          omega
        | some s =>
          dsimp only at h
          split at h
          · rename_i hs
            injection h with h
            subst h
            simp [validTC, hs]
            omega
          · exact Except.noConfusion h


lemma validateUpdate_ok {raw : UpdateInput} {t : TaskUpdate}
    (h : validateUpdate raw = .ok t) :
    (∀ s, t.status = some s → validStatus s = true) ∧
    (∀ n, t.task_name = some n → 1 ≤ n.length ∧ n.length ≤ 100) ∧
    (∀ d, t.description = some d → d.length ≤ 255) := by
  rcases raw with ⟨tn, de, st⟩
  unfold validateUpdate at h
  cases tn <;> cases de <;> cases st <;> dsimp only at h <;> (repeat' split at h) <;>
    first
      | exact Except.noConfusion h
      | (injection h with h; subst h;
         refine ⟨?_, ?_, ?_⟩ <;> intro x hx <;> simp_all <;> omega)

lemma validateUpdate_status_only {s : String} (hs : validStatus s = true) :
    validateUpdate ⟨none, none, some s⟩ = .ok ⟨none, none, some s⟩ := by
  unfold validateUpdate
  simp [hs]

lemma validateUpdate_bad_status {raw : UpdateInput} {s : String}
    (hraw : raw.status = some s) (hs : validStatus s = false) :
    ∃ e, validateUpdate raw = .error e ∧ e.code = 422 := by
  rcases raw with ⟨tn, de, st⟩
  cases hraw
  unfold validateUpdate
  cases tn <;> cases de <;> dsimp only <;> (repeat' split) <;>
    first
      | exact ⟨_, rfl, rfl⟩
      | simp_all

lemma validateCreate_bad_status {raw : CreateInput} {s : String}
    (hraw : raw.status = some s) (hs : validStatus s = false) :
    ∃ e, validateCreate raw = .error e ∧ e.code = 422 := by
  rcases raw with ⟨tn, de, st⟩
  cases hraw
  unfold validateCreate
  cases tn <;> dsimp only <;> (repeat' split) <;>
    first
      | exact ⟨_, rfl, rfl⟩
      | simp_all

lemma validateCreate_empty_name {raw : CreateInput}
    (hraw : raw.task_name = some "") :
    ∃ e, validateCreate raw = .error e ∧ e.code = 422 := by
  rcases raw with ⟨tn, de, st⟩
  cases hraw
  unfold validateCreate
  dsimp only
  rw [if_pos (by left; decide)]
  exact ⟨_, rfl, rfl⟩

lemma validateCreate_toRaw {t : TaskCreate} (h : validTC t = true) :
    validateCreate (toRaw t) = .ok t := by
  rcases t with ⟨n, de, s⟩
  simp only [validTC, Bool.and_eq_true, decide_eq_true_eq] at h
  obtain ⟨⟨⟨h1, h2⟩, h3⟩, h4⟩ := h
  unfold toRaw validateCreate
  dsimp only
  rw [if_neg (by omega)]
  cases de with
  | some d =>
    dsimp only
    simp only [Option.map_some', Option.getD_some] at h3
    rw [if_neg (by omega), if_pos h4]
  | none =>
    dsimp only
    rw [if_pos h4]


lemma validateTask_good {r : Row} (h : goodRow r = true) :
    validateTask r = .ok (toTask r) := by
  simp only [goodRow, Bool.and_eq_true, decide_eq_true_eq] at h
  obtain ⟨⟨⟨h1, h2⟩, h3⟩, h4⟩ := h
  unfold validateTask toTask
  rw [if_neg (by omega), if_neg (by omega), if_neg (by simp [h4])]

lemma validateTask_bad {r : Row} (hb : goodRow r = false) :
    ∃ e, validateTask r = .error e := by
  unfold validateTask
  split
  · exact ⟨_, rfl⟩
  · split
    · exact ⟨_, rfl⟩
    · split
      · exact ⟨_, rfl⟩
      · rename_i h1 h2 h3
        exfalso
        have hg : goodRow r = true := by
          simp only [goodRow, Bool.and_eq_true, decide_eq_true_eq]
          push_neg at h1 h2
          exact ⟨⟨⟨by omega, by omega⟩, by omega⟩, by simpa using h3⟩
        rw [hg] at hb
        exact Bool.noConfusion hb

lemma tasksOfRows_ok_of_good {l : List Row} (h : ∀ r ∈ l, goodRow r = true) :
    tasksOfRows l = .ok (l.map toTask) := by
  induction l with
  | nil => rfl
  | cons a t ih =>
    rw [tasksOfRows, validateTask_good (h a (List.mem_cons_self a t)),
      ih (fun r hr => h r (List.mem_cons_of_mem a hr))]
    rfl

lemma tasksOfRows_error_of_bad {l : List Row} {r : Row} (hm : r ∈ l)
    (hb : goodRow r = false) : ∃ e, tasksOfRows l = .error e := by
  induction l with
  | nil => cases hm
  | cons a t ih =>
    rcases List.mem_cons.mp hm with rfl | hm2
    · obtain ⟨e, he⟩ := validateTask_bad hb
      exact ⟨e, by rw [tasksOfRows, he]⟩
    · cases hv : validateTask a with
      | error e2 => exact ⟨e2, by rw [tasksOfRows, hv]⟩
      | ok t2 =>
        obtain ⟨e, he⟩ := ih hm2
        exact ⟨e, by rw [tasksOfRows, hv, he]⟩

lemma tasksOfRows_ok_forall {l : List Row} {ts : List Task}
    (h : tasksOfRows l = .ok ts) :
    List.Forall₂ (fun r t => validateTask r = .ok t) l ts := by
  induction l generalizing ts with
  | nil =>
    rw [tasksOfRows] at h
    injection h with h
    subst h
    exact List.Forall₂.nil
  | cons a t ih =>
    rw [tasksOfRows] at h
    cases hv : validateTask a with
    | error e => rw [hv] at h; exact Except.noConfusion h
    | ok tk =>
      rw [hv] at h
      cases hr : tasksOfRows t with
      | error e => rw [hr] at h; exact Except.noConfusion h
      | ok tks =>
        rw [hr] at h
        injection h with h
        subst h
        exact List.Forall₂.cons hv (ih hr)

lemma validateTask_ok_id {r : Row} {t : Task} (h : validateTask r = .ok t) :
    t.id = r.id := by
  unfold validateTask at h
  split at h
  · exact Except.noConfusion h
  · split at h
    · exact Except.noConfusion h
    · split at h
      · exact Except.noConfusion h
      · injection h with h; subst h; rfl

lemma validateTask_ok_eq {r : Row} {t : Task} (h : validateTask r = .ok t) :
    t = toTask r := by
  unfold validateTask at h
  split at h
  · exact Except.noConfusion h
  · split at h
    · exact Except.noConfusion h
    · split at h
      · exact Except.noConfusion h
      · injection h with h
        exact h.symm

lemma statusInv_append {db : DB} {r : Row} (h : statusInv db)
    (hs : validStatus r.status = true) : statusInv ⟨db.rows ++ [r]⟩ := by
  intro x hx
  rcases List.mem_append.mp hx with hx | hx
  · exact h x hx
  · simp only [List.mem_singleton] at hx
    subst hx
    exact hs

lemma statusInv_update_map {db : DB} {i : Nat} (h : statusInv db) (f : Row → Row)
    (hf : ∀ r ∈ db.rows, validStatus r.status = true → validStatus (f r).status = true) :
    statusInv ⟨db.rows.map (fun r => if r.id == i then f r else r)⟩ := by
  intro x hx
  obtain ⟨r, hr, hrx⟩ := List.mem_map.mp hx
  subst hrx
  split
  · exact hf r hr (h r hr)
  · exact h r hr

lemma statusInv_filter {db : DB} {i : Nat} (h : statusInv db) :
    statusInv ⟨db.rows.filter (fun r => !(r.id == i))⟩ := by
  intro x hx
  exact h x (List.mem_filter.mp hx).1


lemma validateUpdate_ok_fields {raw : UpdateInput} {t : TaskUpdate}
    (h : validateUpdate raw = .ok t) :
    t.task_name = raw.task_name ∧ t.description = raw.description ∧
    t.status = raw.status := by
  rcases raw with ⟨tn, de, st⟩
  unfold validateUpdate at h
  cases tn <;> cases de <;> cases st <;> dsimp only at h <;> (repeat' split at h) <;>
    first
      | exact Except.noConfusion h
      | (injection h with h; subst h; exact ⟨rfl, rfl, rfl⟩)

lemma create_task_ok {raw : CreateInput} {now : String} {db : DB}
    {t : Task} {db2 : DB} (h : create_task raw now db = .ok (t, db2)) :
    ∃ u, validateCreate raw = .ok u ∧
      t = ⟨nextId db, u.task_name, u.description, u.status, now⟩ ∧
      db2 = ⟨db.rows ++ [⟨nextId db, u.task_name, u.description, u.status, now⟩]⟩ := by
  unfold create_task at h
  cases hv : validateCreate raw with
  | error e => rw [hv] at h; exact Except.noConfusion h
  | ok u =>
    rw [hv] at h
    dsimp only [insertRow] at h
    simp only [Except.ok.injEq, Prod.mk.injEq] at h
    exact ⟨u, rfl, h.1.symm, h.2.symm⟩

lemma update_task_err_val {i : Nat} {raw : UpdateInput} {db : DB} {e : Err}
    (hval : validateUpdate raw = .error e) :
    update_task i raw db = (db, .error e) := by
  unfold update_task
  rw [hval]

lemma update_task_404 {i : Nat} {raw : UpdateInput} {db : DB}
    {u : TaskUpdate} (hval : validateUpdate raw = .ok u)
    (hnone : findRow db i = none) :
    update_task i raw db = (db, .error ⟨404, "Task not found"⟩) := by
  unfold update_task
  rw [hval, hnone]

lemma update_task_write {i : Nat} {raw : UpdateInput} {db : DB}
    {u : TaskUpdate} {row : Row} (hval : validateUpdate raw = .ok u)
    (hfind : findRow db i = some row) :
    update_task i raw db =
      (⟨db.rows.map (fun r =>
        if r.id == i then
          { r with
            task_name := (match u.task_name with | some n => n | none => row.task_name),
            description := (match u.description with | some d => some d | none => row.description),
            status := (match u.status with | some s => s | none => row.status) }
        else r)⟩,
       validateTask ⟨i,
        (match u.task_name with | some n => n | none => row.task_name),
        (match u.description with | some d => some d | none => row.description),
        (match u.status with | some s => s | none => row.status),
        row.date_added⟩) := by
  unfold update_task
  rw [hval, hfind]

lemma delete_task_ok {i : Nat} {db db2 : DB}
    (h : delete_task i db = .ok db2) :
    db2 = ⟨db.rows.filter (fun r => !(r.id == i))⟩ := by
  unfold delete_task at h
  cases hf : findRow db i with
  | none => rw [hf] at h; exact Except.noConfusion h
  | some row =>
    rw [hf] at h
    injection h with h
    exact h.symm

lemma forall₂_mem_right {α β : Type} {R : α → β → Prop} {l : List α}
    {l2 : List β} (h : List.Forall₂ R l l2) {b : β} (hb : b ∈ l2) :
    ∃ a ∈ l, R a b := by
  induction h with
  | nil => cases hb
  | cons hR hF ih =>
    rcases List.mem_cons.mp hb with rfl | hb2
    · exact ⟨_, List.mem_cons_self _ _, hR⟩
    · obtain ⟨a, ha, hab⟩ := ih hb2
      exact ⟨a, List.mem_cons_of_mem _ ha, hab⟩


lemma validTC_status {t : TaskCreate} (h : validTC t = true) :
    validStatus t.status = true := by
  simp only [validTC, Bool.and_eq_true] at h
  exact h.2

lemma idsOK_update_map {db : DB} {i : Nat} (h : idsOK db) (f : Row → Row)
    (hf : ∀ r, (f r).id = r.id) :
    idsOK ⟨db.rows.map (fun r => if r.id == i then f r else r)⟩ := by
  unfold idsOK
  dsimp only
  rw [map_update_rows_id db.rows i f hf]
  exact h

lemma statusInv_applyOp {db db' : DB} {op : Op} (hinv : statusInv db)
    (hok : applyOp op db = .ok db') (hcli : isCliUpdate op = false) :
    statusInv db' := by
  cases op with
  | httpCreate raw now =>
    dsimp only [applyOp] at hok
    cases hc : create_task raw now db with
    | error e => rw [hc] at hok; exact Except.noConfusion hok
    | ok p =>
      rcases p with ⟨t, db2⟩
      rw [hc] at hok
      dsimp only [Except.map] at hok
      injection hok with hok
      subst hok
      obtain ⟨u, hu, ht, hdb⟩ := create_task_ok hc
      subst hdb
      exact statusInv_append hinv (validTC_status (validateCreate_ok hu))
  | httpUpdate i raw =>
    dsimp only [applyOp] at hok
    injection hok with hok
    subst hok
    cases hv : validateUpdate raw with
    | error e =>
      rw [update_task_err_val hv]
      exact hinv
    | ok u =>
      cases hf : findRow db i with
      | none =>
        rw [update_task_404 hv hf]
        exact hinv
      | some row =>
        rw [update_task_write hv hf]
        dsimp only
        apply statusInv_update_map hinv
        intro r hr hrs
        cases hus : u.status with
        | some s =>
          have hvs := (validateUpdate_ok hv).1 s hus
          simpa [hus] using hvs
        | none =>
          have hrow := hinv row (findRow_some hf).1
          simpa [hus] using hrow
  | httpDelete i =>
    dsimp only [applyOp] at hok
    have hdb := delete_task_ok hok
    subst hdb
    exact statusInv_filter hinv
  | cliAdd n d now =>
    dsimp only [applyOp, addItem, insertRow] at hok
    injection hok with hok
    subst hok
    exact statusInv_append hinv rfl
  | cliUpdate i s =>
    simp only [isCliUpdate] at hcli
    exact Bool.noConfusion hcli
  | cliRemove i =>
    dsimp only [applyOp, removeItem] at hok
    injection hok with hok
    subst hok
    exact statusInv_filter hinv

lemma idsOK_applyOp {db db' : DB} {op : Op} (h : idsOK db)
    (hok : applyOp op db = .ok db') : idsOK db' := by
  cases op with
  | httpCreate raw now =>
    dsimp only [applyOp] at hok
    cases hc : create_task raw now db with
    | error e => rw [hc] at hok; exact Except.noConfusion hok
    | ok p =>
      rcases p with ⟨t, db2⟩
      rw [hc] at hok
      dsimp only [Except.map] at hok
      injection hok with hok
      subst hok
      obtain ⟨u, hu, ht, hdb⟩ := create_task_ok hc
      subst hdb
      exact idsOK_insert h u.task_name u.description u.status now
  | httpUpdate i raw =>
    dsimp only [applyOp] at hok
    injection hok with hok
    subst hok
    cases hv : validateUpdate raw with
    | error e =>
      rw [update_task_err_val hv]
      exact h
    | ok u =>
      cases hf : findRow db i with
      | none =>
        rw [update_task_404 hv hf]
        exact h
      | some row =>
        rw [update_task_write hv hf]
        exact idsOK_update_map h _ (fun r => rfl)
  | httpDelete i =>
    dsimp only [applyOp] at hok
    have hdb := delete_task_ok hok
    subst hdb
    exact idsOK_filter db i h
  | cliAdd n d now =>
    dsimp only [applyOp, addItem] at hok
    injection hok with hok
    subst hok
    exact idsOK_insert h n (some d) "pending" now
  | cliUpdate i s =>
    dsimp only [applyOp, updateItem] at hok
    injection hok with hok
    subst hok
    exact idsOK_update_map h _ (fun r => rfl)
  | cliRemove i =>
    dsimp only [applyOp, removeItem] at hok
    injection hok with hok
    subst hok
    exact idsOK_filter db i h


lemma runCreates_toRaw (xs : List (TaskCreate × String)) (db : DB)
    (hv : ∀ x ∈ xs, validTC x.1 = true) :
    runCreates (xs.map (fun x => (toRaw x.1, x.2))) db =
      .ok ⟨db.rows ++ buildRows xs (nextId db)⟩ := by
  induction xs generalizing db with
  | nil => simp [runCreates, buildRows]
  | cons x xs ih =>
    have hvx := hv x (List.mem_cons_self _ _)
    have hcreate : create_task (toRaw x.1) x.2 db =
        .ok (⟨nextId db, x.1.task_name, x.1.description, x.1.status, x.2⟩,
             ⟨db.rows ++ [⟨nextId db, x.1.task_name, x.1.description, x.1.status, x.2⟩]⟩) := by
      unfold create_task
      rw [validateCreate_toRaw hvx]
      rfl
    simp only [List.map_cons]
    rw [runCreates, hcreate]
    dsimp only
    rw [ih _ (fun y hy => hv y (List.mem_cons_of_mem _ hy))]
    have hn : nextId ⟨db.rows ++
        [⟨nextId db, x.1.task_name, x.1.description, x.1.status, x.2⟩]⟩ =
        nextId db + 1 :=
      nextId_insert db x.1.task_name x.1.description x.1.status x.2
    rw [hn, buildRows, List.append_assoc]
    rfl

lemma buildRows_good {xs : List (TaskCreate × String)}
    (hv : ∀ x ∈ xs, validTC x.1 = true) :
    ∀ i, ∀ r ∈ buildRows xs i, goodRow r = true := by
  induction xs with
  | nil => intro i r hr; cases hr
  | cons x xs ih =>
    intro i r hr
    rcases List.mem_cons.mp hr with rfl | hr2
    · exact hv x (List.mem_cons_self _ _)
    · exact ih (fun y hy => hv y (List.mem_cons_of_mem _ hy)) (i + 1) r hr2

lemma buildRows_id_ge {xs : List (TaskCreate × String)} :
    ∀ i, ∀ r ∈ buildRows xs i, i ≤ r.id := by
  induction xs with
  | nil => intro i r hr; cases hr
  | cons x xs ih =>
    intro i r hr
    rcases List.mem_cons.mp hr with rfl | hr2
    · exact Nat.le_refl i
    · exact Nat.le_trans (Nat.le_succ i) (ih (i + 1) r hr2)

lemma buildRows_pairwise {xs : List (TaskCreate × String)} :
    ∀ i, ((buildRows xs i).map Row.id).Pairwise (· < ·) := by
  induction xs with
  | nil => intro i; exact List.Pairwise.nil
  | cons x xs ih =>
    intro i
    simp only [buildRows, List.map_cons, List.pairwise_cons]
    refine ⟨?_, ih (i + 1)⟩
    intro b hb
    obtain ⟨r, hr, hrb⟩ := List.mem_map.mp hb
    have hge := buildRows_id_ge (i + 1) r hr
    omega

lemma buildRows_length {xs : List (TaskCreate × String)} :
    ∀ i, (buildRows xs i).length = xs.length := by
  induction xs with
  | nil => intro i; rfl
  | cons x xs ih =>
    intro i
    simp only [buildRows, List.length_cons, ih (i + 1)]

lemma buildRows_forall₂ {xs : List (TaskCreate × String)} :
    ∀ i, List.Forall₂ (fun (t : Task) (x : TaskCreate × String) =>
      t.task_name = x.1.task_name ∧ t.description = x.1.description ∧
      t.status = x.1.status ∧ t.date_added = x.2)
      ((buildRows xs i).map toTask) xs := by
  induction xs with
  | nil => intro i; exact List.Forall₂.nil
  | cons x xs ih =>
    intro i
    simp only [buildRows, List.map_cons]
    exact List.Forall₂.cons ⟨rfl, rfl, rfl, rfl⟩ (ih (i + 1))

lemma map_toTask_id (l : List Row) :
    (l.map toTask).map Task.id = l.map Row.id := by
  rw [List.map_map]
  rfl


/-! ### Claim theorems -/

/-- C1, counterexample: the CLI `update-item` command writes an
arbitrary status string to storage with no validation: after
`add-item a d` and `update-item 1 bogus`, the stored task has status
`"bogus"`, outside the four enumerated values, so the claim as stated
(covering CLI update-item) is false. -/
theorem c1_counterexample :
    addItem "a" "d" "t0" emptyDB =
      .ok ⟨[⟨1, "a", some "d", "pending", "t0"⟩]⟩ ∧
    updateItem 1 "bogus" ⟨[⟨1, "a", some "d", "pending", "t0"⟩]⟩ =
      .ok ⟨[⟨1, "a", some "d", "bogus", "t0"⟩]⟩ ∧
    validStatus "bogus" = false ∧
    ¬ statusInv ⟨[⟨1, "a", some "d", "bogus", "t0"⟩]⟩ := by
  decide

/-- C1 (amended): every operation except CLI `update-item` preserves
the invariant that each stored status is one of the four enumerated
values, and an HTTP create or update whose input status is outside the
set fails validation with a 422 error (so the invalid status is never
written); CLI `update-item` writes its status argument unvalidated. -/
theorem c1_amended_theorem (db db' : DB) (op : Op) (raw : CreateInput)
    (raw2 : UpdateInput) (i : Nat) (now s : String)
    (hinv : statusInv db)
    (hok : applyOp op db = .ok db')
    (hcli : isCliUpdate op = false)
    (hraws : raw.status = some s)
    (hraw2s : raw2.status = some s)
    (hbad : validStatus s = false) :
    statusInv db' ∧
    (∃ e, create_task raw now db = .error e ∧ e.code = 422) ∧
    (∃ e, update_task i raw2 db = (db, .error e) ∧ e.code = 422) := by
  refine ⟨statusInv_applyOp hinv hok hcli, ?_, ?_⟩
  · obtain ⟨e, he, hc⟩ := validateCreate_bad_status hraws hbad
    refine ⟨e, ?_, hc⟩
    unfold create_task
    rw [he]
  · obtain ⟨e, he, hc⟩ := validateUpdate_bad_status hraw2s hbad
    exact ⟨e, update_task_err_val he, hc⟩

/-- C1 witness: the amended theorem applied at a concrete state and
operation. -/
theorem c1_witness :
    statusInv ⟨[⟨1, "x", some "y", "pending", "t0"⟩]⟩ ∧
    (∃ e, create_task ⟨some "a", none, some "bogus"⟩ "t1" emptyDB =
      .error e ∧ e.code = 422) ∧
    (∃ e, update_task 1 ⟨none, none, some "bogus"⟩ emptyDB =
      (emptyDB, .error e) ∧ e.code = 422) :=
  c1_amended_theorem emptyDB ⟨[⟨1, "x", some "y", "pending", "t0"⟩]⟩
    (Op.cliAdd "x" "y" "t0") ⟨some "a", none, some "bogus"⟩
    ⟨none, none, some "bogus"⟩ 1 "t1" "bogus"
    (by decide) (by decide) (by decide) (by decide) (by decide) (by decide)

/-- C2, counterexample: the CLI `add-item` command performs no
validation: `add-item` with an empty task name persists a row, so the
claim as stated (covering CLI add-item) is false. -/
theorem c2_counterexample :
    addItem "" "d" "t0" emptyDB =
      .ok ⟨[⟨1, "", some "d", "pending", "t0"⟩]⟩ ∧
    (⟨[⟨1, "", some "d", "pending", "t0"⟩]⟩ : DB).rows ≠ emptyDB.rows := by
  decide

/-- C2 (amended): an HTTP POST /tasks whose task_name is empty fails
validation with a 422 error and persists nothing; CLI `add-item`
performs no validation and persists the row even with an empty name. -/
theorem c2_amended_theorem (db : DB) (raw : CreateInput) (now d nowc : String)
    (hraw : raw.task_name = some "") :
    (∃ e, create_task raw now db = .error e ∧ e.code = 422) ∧
    ∃ db', addItem "" d nowc db = .ok db' ∧
      db'.rows = db.rows ++ [⟨nextId db, "", some d, "pending", nowc⟩] := by
  constructor
  · obtain ⟨e, he, hc⟩ := validateCreate_empty_name hraw
    refine ⟨e, ?_, hc⟩
    unfold create_task
    rw [he]
  · exact ⟨_, rfl, rfl⟩

/-- C2 witness: the amended theorem applied at the empty store. -/
theorem c2_witness :
    (∃ e, create_task ⟨some "", none, none⟩ "t" emptyDB =
      .error e ∧ e.code = 422) ∧
    ∃ db', addItem "" "x" "t2" emptyDB = .ok db' ∧
      db'.rows = emptyDB.rows ++
        [⟨nextId emptyDB, "", some "x", "pending", "t2"⟩] :=
  c2_amended_theorem emptyDB ⟨some "", none, none⟩ "t" "x" "t2" rfl

/-- C3, counterexample: the CLI `update-item` command does not fail on
a nonexistent id: on the empty store it reports success (its UPDATE
matches zero rows), so the claim as stated (covering CLI update-item)
is false. -/
theorem c3_counterexample :
    findRow emptyDB 1 = none ∧
    updateItem 1 "done" emptyDB = .ok emptyDB := by
  decide

/-- C3 (amended): an HTTP PUT /tasks/{id} with a validated body and an
id absent from storage fails with a 404 "Task not found" error; CLI
`update-item` on an absent id leaves storage unchanged but reports
success with no not-found error. -/
theorem c3_amended_theorem (db : DB) (i : Nat) (raw : UpdateInput)
    (u : TaskUpdate) (s : String)
    (hval : validateUpdate raw = .ok u)
    (hnone : findRow db i = none) :
    update_task i raw db = (db, .error ⟨404, "Task not found"⟩) ∧
    updateItem i s db = .ok db := by
  constructor
  · exact update_task_404 hval hnone
  · unfold updateItem
    have hmap : db.rows.map
        (fun r => if r.id == i then { r with status := s } else r) = db.rows := by
      have h1 : ∀ r ∈ db.rows,
          (if r.id == i then { r with status := s } else r) = r := by
        intro r hr
        rw [if_neg]
        simpa using findRow_none hnone r hr
      rw [List.map_congr_left h1, List.map_id']
    rw [hmap]

/-- C3 witness: the amended theorem applied at the empty store. -/
theorem c3_witness :
    update_task 1 ⟨none, none, some "done"⟩ emptyDB =
      (emptyDB, .error ⟨404, "Task not found"⟩) ∧
    updateItem 1 "done" emptyDB = .ok emptyDB :=
  c3_amended_theorem emptyDB 1 ⟨none, none, some "done"⟩
    ⟨none, none, some "done"⟩ "done" (by decide) (by decide)


/-- C4, counterexample: the CLI `remove-item` command does not fail on
a second delete of the same id: after adding and removing a task, a
second `remove-item` of that id reports success (its DELETE matches
zero rows), so the claim as stated (covering CLI remove-item) is
false. -/
theorem c4_counterexample :
    addItem "a" "d" "t0" emptyDB =
      .ok ⟨[⟨1, "a", some "d", "pending", "t0"⟩]⟩ ∧
    removeItem 1 ⟨[⟨1, "a", some "d", "pending", "t0"⟩]⟩ = .ok emptyDB ∧
    removeItem 1 emptyDB = .ok emptyDB := by
  decide

/-- C4 (amended): deleting an existing id via HTTP removes exactly that
row — the id is absent afterwards, every other row is kept, and any
subsequent list (HTTP or CLI) no longer contains the id; a second HTTP
DELETE of the same id fails with a 404 "Task not found" error, while a
second CLI `remove-item` reports success and changes nothing. -/
theorem c4_amended_theorem (db : DB) (i : Nat) (row : Row)
    (hids : idsOK db) (hfind : findRow db i = some row) :
    ∃ db', delete_task i db = .ok db' ∧
      removeItem i db = .ok db' ∧
      findRow db' i = none ∧
      db'.rows.length + 1 = db.rows.length ∧
      (∀ r ∈ db.rows, r.id ≠ i → r ∈ db'.rows) ∧
      (∀ r ∈ showList db', r.id ≠ i) ∧
      (∀ ts, get_tasks db' = .ok ts → ∀ t ∈ ts, t.id ≠ i) ∧
      delete_task i db' = .error ⟨404, "Task not found"⟩ ∧
      removeItem i db' = .ok db' := by
  refine ⟨⟨db.rows.filter (fun r => !(r.id == i))⟩, ?_, rfl,
    findRow_filter_ne db i, ?_, ?_, ?_, ?_, ?_, ?_⟩
  · unfold delete_task
    rw [hfind]
  · exact length_filter_remove hids (findRow_some hfind).1 (findRow_some hfind).2
  · intro r hr hne
    exact List.mem_filter.mpr ⟨hr, by simpa using hne⟩
  · intro r hr
    exact (mem_filter_ne hr).2
  · intro ts hts t ht
    have hforall := tasksOfRows_ok_forall hts
    obtain ⟨r, hrmem, hrt⟩ := forall₂_mem_right hforall ht
    rw [validateTask_ok_id hrt]
    exact (mem_filter_ne hrmem).2
  · unfold delete_task
    rw [findRow_filter_ne db i]
  · unfold removeItem
    have hid : (db.rows.filter (fun r => !(r.id == i))).filter
        (fun r => !(r.id == i)) = db.rows.filter (fun r => !(r.id == i)) :=
      List.filter_eq_self.mpr (fun r hr => (List.mem_filter.mp hr).2)
    dsimp only
    rw [hid]

/-- C4 witness: the amended theorem applied at a one-row store. -/
theorem c4_witness :
    ∃ db', delete_task 1 ⟨[⟨1, "a", some "d", "pending", "t0"⟩]⟩ = .ok db' ∧
      removeItem 1 ⟨[⟨1, "a", some "d", "pending", "t0"⟩]⟩ = .ok db' ∧
      findRow db' 1 = none ∧
      db'.rows.length + 1 =
        (⟨[⟨1, "a", some "d", "pending", "t0"⟩]⟩ : DB).rows.length ∧
      (∀ r ∈ (⟨[⟨1, "a", some "d", "pending", "t0"⟩]⟩ : DB).rows,
        r.id ≠ 1 → r ∈ db'.rows) ∧
      (∀ r ∈ showList db', r.id ≠ 1) ∧
      (∀ ts, get_tasks db' = .ok ts → ∀ t ∈ ts, t.id ≠ 1) ∧
      delete_task 1 db' = .error ⟨404, "Task not found"⟩ ∧
      removeItem 1 db' = .ok db' :=
  c4_amended_theorem ⟨[⟨1, "a", some "d", "pending", "t0"⟩]⟩ 1
    ⟨1, "a", some "d", "pending", "t0"⟩ (by decide) (by decide)

/-- C5, counterexample: the `tasks` table uses `INTEGER PRIMARY KEY`
without `AUTOINCREMENT`, so SQLite assigns one more than the largest
rowid in use: create yields id 1, delete removes it, and the next
create yields id 1 again — an id is reused after its task is deleted,
so the claim as stated is false. -/
theorem c5_counterexample :
    create_task ⟨some "a", none, none⟩ "t1" emptyDB =
      .ok (⟨1, "a", none, "pending", "t1"⟩,
           ⟨[⟨1, "a", none, "pending", "t1"⟩]⟩) ∧
    delete_task 1 ⟨[⟨1, "a", none, "pending", "t1"⟩]⟩ = .ok emptyDB ∧
    create_task ⟨some "b", none, none⟩ "t2" emptyDB =
      .ok (⟨1, "b", none, "pending", "t2"⟩,
           ⟨[⟨1, "b", none, "pending", "t2"⟩]⟩) := by
  decide

/-- C5 (amended): ids are unique among the currently stored tasks —
every operation preserves strictly increasing stored ids, and a
successful create assigns an id different from every currently stored
id — but an id is not unique across the lifetime of the store: after
deleting the task with the largest id, a later create reassigns that
id (see the counterexample). -/
theorem c5_amended_theorem (db db' db2 : DB) (op : Op) (raw : CreateInput)
    (now : String) (t : Task)
    (hids : idsOK db) (hok : applyOp op db = .ok db')
    (hc : create_task raw now db = .ok (t, db2)) :
    idsOK db' ∧ t.id ∉ db.rows.map Row.id ∧ idsOK db2 := by
  obtain ⟨u, hu, ht, hdb⟩ := create_task_ok hc
  refine ⟨idsOK_applyOp hids hok, ?_, ?_⟩
  · intro hmem
    obtain ⟨r, hr, hri⟩ := List.mem_map.mp hmem
    have hlt := id_lt_nextId hr
    rw [ht] at hri
    dsimp only at hri
    omega
  · subst hdb
    exact idsOK_insert hids u.task_name u.description u.status now

/-- C5 witness: the amended theorem applied at the empty store. -/
theorem c5_witness :
    idsOK ⟨[⟨1, "x", some "y", "pending", "t0"⟩]⟩ ∧
    (⟨1, "a", none, "pending", "t1"⟩ : Task).id ∉ emptyDB.rows.map Row.id ∧
    idsOK ⟨[⟨1, "a", none, "pending", "t1"⟩]⟩ :=
  c5_amended_theorem emptyDB ⟨[⟨1, "x", some "y", "pending", "t0"⟩]⟩
    ⟨[⟨1, "a", none, "pending", "t1"⟩]⟩ (Op.cliAdd "x" "y" "t0")
    ⟨some "a", none, none⟩ "t1" ⟨1, "a", none, "pending", "t1"⟩
    (by decide) (by decide) (by decide)


/-- C6: an HTTP POST /tasks with a valid task_name and neither
description nor status succeeds, returning a task whose status is
"pending", whose date_added is the creation timestamp, whose id is
positive (non-null), and persisting exactly the returned task. -/
theorem c6_theorem (n now : String) (db : DB)
    (h1 : 1 ≤ n.length) (h2 : n.length ≤ 100) :
    ∃ t db', create_task ⟨some n, none, none⟩ now db = .ok (t, db') ∧
      t.status = "pending" ∧ t.date_added = now ∧ t.task_name = n ∧
      t.description = none ∧ 1 ≤ t.id ∧
      db'.rows = db.rows ++
        [⟨t.id, t.task_name, t.description, t.status, t.date_added⟩] := by
  have hv : validateCreate ⟨some n, none, none⟩ = .ok ⟨n, none, "pending"⟩ := by
    unfold validateCreate
    dsimp only
    rw [if_neg (by rintro (hx | hx) <;> omega)]
  refine ⟨⟨nextId db, n, none, "pending", now⟩,
    ⟨db.rows ++ [⟨nextId db, n, none, "pending", now⟩]⟩, ?_, rfl, rfl, rfl,
    rfl, ?_, rfl⟩
  · unfold create_task
    rw [hv]
    rfl
  · show 1 ≤ nextId db
    unfold nextId
    omega

/-- C6 witness: the theorem applied at the empty store with the name
"Buy milk". -/
theorem c6_witness :
    ∃ t db', create_task ⟨some "Buy milk", none, none⟩ "2024-01-01 00:00"
        emptyDB = .ok (t, db') ∧
      t.status = "pending" ∧ t.date_added = "2024-01-01 00:00" ∧
      t.task_name = "Buy milk" ∧ t.description = none ∧ 1 ≤ t.id ∧
      db'.rows = emptyDB.rows ++
        [⟨t.id, t.task_name, t.description, t.status, t.date_added⟩] :=
  c6_theorem "Buy milk" "2024-01-01 00:00" emptyDB (by decide) (by decide)

/-- C7: an update that provides only a (valid) status — an HTTP PUT
with body {status: s} or a CLI `update-item` — changes only the
status of the stored task: its task_name, description and date_added
keep their prior values, and every other row is untouched.  When the
stored row satisfies the `TaskBase` validators the PUT response is the
merged task with those preserved fields; on a CLI-corrupted stored row
the handler still commits exactly this merged row but its `Task(...)`
response construction raises after the commit (a 500). -/
theorem c7_theorem (db : DB) (i : Nat) (s : String) (row : Row)
    (hfind : findRow db i = some row) (hs : validStatus s = true) :
    ∃ resp db', update_task i ⟨none, none, some s⟩ db = (db', resp) ∧
      findRow db' i =
        some ⟨row.id, row.task_name, row.description, s, row.date_added⟩ ∧
      (∀ r ∈ db.rows, r.id ≠ i → r ∈ db'.rows) ∧
      (goodRow row = true →
        resp = .ok ⟨i, row.task_name, row.description, s, row.date_added⟩) ∧
      ∃ db2, updateItem i s db = .ok db2 ∧
        findRow db2 i =
          some ⟨row.id, row.task_name, row.description, s, row.date_added⟩ := by
  refine ⟨validateTask ⟨i, row.task_name, row.description, s, row.date_added⟩,
    ⟨db.rows.map (fun r => if r.id == i then
      { r with task_name := row.task_name, description := row.description,
               status := s } else r)⟩,
    ?_, ?_, ?_, ?_, ?_⟩
  · rw [update_task_write (validateUpdate_status_only hs) hfind]
  · unfold findRow
    dsimp only
    rw [find?_map_update db.rows i (fun r =>
      { r with task_name := row.task_name, description := row.description,
               status := s }) (fun r => rfl)]
    unfold findRow at hfind
    rw [hfind]
    rfl
  · intro r hr hne
    apply List.mem_map.mpr
    exact ⟨r, hr, by rw [if_neg (by simpa using hne)]⟩
  · intro hgood
    have hg : goodRow ⟨i, row.task_name, row.description, s,
        row.date_added⟩ = true := by
      simp only [goodRow, Bool.and_eq_true, decide_eq_true_eq] at hgood ⊢
      exact ⟨hgood.1, hs⟩
    rw [validateTask_good hg]
    rfl
  · refine ⟨_, rfl, ?_⟩
    unfold findRow
    dsimp only
    rw [find?_map_update db.rows i (fun r => { r with status := s })
      (fun r => rfl)]
    unfold findRow at hfind
    rw [hfind]
    rfl

/-- C7 witness: the theorem applied at a one-row store with status
"done". -/
theorem c7_witness :
    ∃ resp db', update_task 1 ⟨none, none, some "done"⟩
        ⟨[⟨1, "a", some "d", "pending", "t0"⟩]⟩ = (db', resp) ∧
      findRow db' 1 = some ⟨1, "a", some "d", "done", "t0"⟩ ∧
      (∀ r ∈ (⟨[⟨1, "a", some "d", "pending", "t0"⟩]⟩ : DB).rows,
        r.id ≠ 1 → r ∈ db'.rows) ∧
      (goodRow ⟨1, "a", some "d", "pending", "t0"⟩ = true →
        resp = .ok ⟨1, "a", some "d", "done", "t0"⟩) ∧
      ∃ db2, updateItem 1 "done" ⟨[⟨1, "a", some "d", "pending", "t0"⟩]⟩ =
          .ok db2 ∧
        findRow db2 1 = some ⟨1, "a", some "d", "done", "t0"⟩ :=
  c7_theorem ⟨[⟨1, "a", some "d", "pending", "t0"⟩]⟩ 1 "done"
    ⟨1, "a", some "d", "pending", "t0"⟩ (by decide) (by decide)

/-- C9: the HTTP update cannot clear a stored description: if the
stored task's description is non-null and the request body's
description is absent (or null), a successful PUT returns and stores
the prior description unchanged. -/
theorem c9_theorem (db : DB) (i : Nat) (raw : UpdateInput) (row : Row)
    (t : Task) (db' : DB) (d : String)
    (hfind : findRow db i = some row)
    (hd : row.description = some d)
    (hraw : raw.description = none)
    (hok : update_task i raw db = (db', .ok t)) :
    t.description = some d ∧
    ∃ r2, findRow db' i = some r2 ∧ r2.description = some d := by
  cases hv : validateUpdate raw with
  | error e =>
    rw [update_task_err_val hv] at hok
    exact Except.noConfusion (congrArg Prod.snd hok)
  | ok u =>
    rw [update_task_write hv hfind] at hok
    simp only [Prod.mk.injEq] at hok
    obtain ⟨hdb, hresp⟩ := hok
    have hud : u.description = none := by
      rw [(validateUpdate_ok_fields hv).2.1, hraw]
    have ht2 := validateTask_ok_eq hresp
    subst hdb
    constructor
    · rw [ht2]
      show (match u.description with
        | some d => some d
        | none => row.description) = some d
      rw [hud]
      exact hd
    · refine ⟨⟨row.id,
        (match u.task_name with | some n => n | none => row.task_name),
        (match u.description with | some d => some d | none => row.description),
        (match u.status with | some s => s | none => row.status),
        row.date_added⟩, ?_, ?_⟩
      · unfold findRow
        dsimp only
        rw [find?_map_update db.rows i (fun r =>
          { r with
            task_name := (match u.task_name with | some n => n | none => row.task_name),
            description := (match u.description with | some d => some d | none => row.description),
            status := (match u.status with | some s => s | none => row.status) })
          (fun r => rfl)]
        unfold findRow at hfind
        rw [hfind]
        rfl
      · dsimp only
        rw [hud]
        exact hd

/-- C9 witness: the theorem applied at a one-row store and a request
that updates only the status. -/
theorem c9_witness :
    (⟨1, "a", some "d", "done", "t0"⟩ : Task).description = some "d" ∧
    ∃ r2, findRow ⟨[⟨1, "a", some "d", "done", "t0"⟩]⟩ 1 = some r2 ∧
      r2.description = some "d" :=
  c9_theorem ⟨[⟨1, "a", some "d", "pending", "t0"⟩]⟩ 1
    ⟨none, none, some "done"⟩ ⟨1, "a", some "d", "pending", "t0"⟩
    ⟨1, "a", some "d", "done", "t0"⟩ ⟨[⟨1, "a", some "d", "done", "t0"⟩]⟩ "d"
    (by decide) (by decide) (by decide) (by decide)

/-- On a committed PUT whose merged row carries corrupt stored fields
(reachable via the CLI, per C2/C10), the response is the 500 error
while the table keeps the merged row: concretely, updating only the
status of a stored row with an empty task_name commits the write and
responds with the post-commit validation failure. -/
theorem update_task_commits_before_500 :
    update_task 1 ⟨none, none, some "done"⟩
        ⟨[⟨1, "", some "d", "pending", "t0"⟩]⟩ =
      (⟨[⟨1, "", some "d", "done", "t0"⟩]⟩,
       .error ⟨500, "Internal Server Error: task_name validation"⟩) := by
  decide


/-- C8: starting from the empty store, a sequence of N successful
HTTP creates yields a store whose list operation returns exactly N
tasks, in strictly ascending id order, the k-th listed task carrying
exactly the fields of the k-th create. -/
theorem c8_theorem (xs : List (TaskCreate × String)) (db' : DB)
    (hv : ∀ x ∈ xs, validTC x.1 = true)
    (hrun : runCreates (xs.map (fun x => (toRaw x.1, x.2))) emptyDB = .ok db') :
    ∃ ts, get_tasks db' = .ok ts ∧ ts.length = xs.length ∧
      (ts.map Task.id).Pairwise (· < ·) ∧
      List.Forall₂ (fun (t : Task) (x : TaskCreate × String) =>
        t.task_name = x.1.task_name ∧ t.description = x.1.description ∧
        t.status = x.1.status ∧ t.date_added = x.2) ts xs := by
  rw [runCreates_toRaw xs emptyDB hv] at hrun
  injection hrun with hdb
  subst hdb
  refine ⟨(buildRows xs (nextId emptyDB)).map toTask, ?_, ?_, ?_, ?_⟩
  · exact tasksOfRows_ok_of_good (buildRows_good hv (nextId emptyDB))
  · rw [List.length_map]
    exact buildRows_length (nextId emptyDB)
  · rw [map_toTask_id]
    exact buildRows_pairwise (nextId emptyDB)
  · exact buildRows_forall₂ (nextId emptyDB)

/-- C8 witness: the theorem applied to two concrete creates. -/
theorem c8_witness :
    ∃ ts, get_tasks ⟨[⟨1, "a", none, "pending", "t1"⟩,
        ⟨2, "b", some "d", "done", "t2"⟩]⟩ = .ok ts ∧
      ts.length = ([((⟨"a", none, "pending"⟩ : TaskCreate), "t1"),
        ((⟨"b", some "d", "done"⟩ : TaskCreate), "t2")]).length ∧
      (ts.map Task.id).Pairwise (· < ·) ∧
      List.Forall₂ (fun (t : Task) (x : TaskCreate × String) =>
        t.task_name = x.1.task_name ∧ t.description = x.1.description ∧
        t.status = x.1.status ∧ t.date_added = x.2) ts
        [((⟨"a", none, "pending"⟩ : TaskCreate), "t1"),
         ((⟨"b", some "d", "done"⟩ : TaskCreate), "t2")] :=
  c8_theorem [((⟨"a", none, "pending"⟩ : TaskCreate), "t1"),
    ((⟨"b", some "d", "done"⟩ : TaskCreate), "t2")]
    ⟨[⟨1, "a", none, "pending", "t1"⟩, ⟨2, "b", some "d", "done", "t2"⟩]⟩
    (by decide) (by decide)

/-- C10: whenever some stored row has an empty task_name or a status
outside the four enumerated values, GET /tasks fails with an error
instead of returning the rows; and such rows are reachable through the
CLI: `add-item` then `update-item` with a bogus status produces a row
with an invalid status, and `add-item` with an empty name produces a
row with an empty task_name. -/
theorem c10_theorem (db : DB)
    (h : ∃ r ∈ db.rows, r.task_name = "" ∨ validStatus r.status = false) :
    (∃ e, get_tasks db = .error e) ∧
    (∃ db1 db2 db3,
      addItem "task" "d" "t0" emptyDB = .ok db1 ∧
      updateItem 1 "bogus" db1 = .ok db2 ∧
      (∃ r ∈ db2.rows, validStatus r.status = false) ∧
      addItem "" "d" "t0" emptyDB = .ok db3 ∧
      (∃ r ∈ db3.rows, r.task_name = "")) := by
  constructor
  · obtain ⟨r, hr, hbad⟩ := h
    have hb : goodRow r = false := by
      rcases hbad with hn | hs
      · simp [goodRow, hn]
      · simp [goodRow, hs]
    exact tasksOfRows_error_of_bad hr hb
  · refine ⟨⟨[⟨1, "task", some "d", "pending", "t0"⟩]⟩,
      ⟨[⟨1, "task", some "d", "bogus", "t0"⟩]⟩,
      ⟨[⟨1, "", some "d", "pending", "t0"⟩]⟩, ?_, ?_, ?_, ?_, ?_⟩ <;> decide

/-- C10 witness: the theorem applied at the CLI-reachable store holding
a row with status "bogus". -/
theorem c10_witness :
    (∃ e, get_tasks ⟨[⟨1, "task", some "d", "bogus", "t0"⟩]⟩ = .error e) ∧
    (∃ db1 db2 db3,
      addItem "task" "d" "t0" emptyDB = .ok db1 ∧
      updateItem 1 "bogus" db1 = .ok db2 ∧
      (∃ r ∈ db2.rows, validStatus r.status = false) ∧
      addItem "" "d" "t0" emptyDB = .ok db3 ∧
      (∃ r ∈ db3.rows, r.task_name = "")) :=
  c10_theorem ⟨[⟨1, "task", some "d", "bogus", "t0"⟩]⟩
    ⟨⟨1, "task", some "d", "bogus", "t0"⟩, by decide, by decide⟩

end Todo
